import Mathlib

/-!
Verification development for the `dia` browsing-artifact search core
(`dia-cli/src/model.rs` and `dia-cli/src/search.rs`).

The Rust core is shallowly embedded:

* `canonical_url` and its helpers operate on `List Char` (Rust `&str`
  slicing becomes list functions).  Rust's `trim_start_matches` removes
  *all* successive occurrences of the pattern prefix; `split(c).next()`
  is the segment before the first occurrence of `c` (always `Some`,
  even `Some("")`); `trim_end_matches('/')` removes all trailing `'/'`.
* `Entry` mirrors the `Entry` struct field by field; the `u64` merge
  key and the `u32`/`i64` counters are `Nat`/`Int`.  `Source`'s derived
  `Ord` compares discriminants, modelled by `Source.prec`.
* `dedupe_entries` folds over the input with an insertion-ordered
  association list standing in for `AHashMap` (value order of
  `into_values` is unspecified in Rust, so statements go through key
  lookup); the `and_modify` closure is `mergeInto`.
* `SearchEngine::search` becomes `search`, parametric in the external
  fuzzy-matching primitive (`nucleo_matcher`'s `Pattern::score`, an
  out-of-scope collaborator) and in the `f32` boost/weight arithmetic,
  abstracted as a final-score function into a linear order `S`.
  `search` returns `Option`: `none` models the panic of
  `select_nth_unstable_by(limit - 1, ..)` when `limit = 0` and the
  scored list is non-empty (the `usize` subtraction underflows, and the
  selection index is out of bounds).  The unstable partial selection
  followed by `truncate(limit)` is modelled by sorting descending and
  taking the first `limit` elements (one of the behaviours the
  unspecified tie-breaking allows); `sort_by` with the descending
  comparator is `sortDesc`.
-/

/-- `dropPrefixQ pat s` is `some rest` when `pat` is a prefix of `s` and
`rest` is what remains after it, `none` otherwise. -/
def dropPrefixQ : List Char → List Char → Option (List Char)
  | [], s => some s
  | _ :: _, [] => none
  | p :: ps, c :: cs => if p = c then dropPrefixQ ps cs else none

/-- Fuel-indexed loop for `trimStartMatches`: repeatedly removes the
prefix `pat` while it matches.  Each successful removal of a non-empty
`pat` consumes at least one character, so `s.length` fuel is enough. -/
def trimStartLoop (pat : List Char) : Nat → List Char → List Char
  | 0, s => s
  | fuel + 1, s =>
    match dropPrefixQ pat s with
    | some rest => if pat.isEmpty then s else trimStartLoop pat fuel rest
    | none => s

/-- Rust `str::trim_start_matches` with a string pattern: removes all
successive occurrences of `pat` from the front. -/
def trimStartMatches (pat s : List Char) : List Char :=
  trimStartLoop pat s.length s

/-- Rust `str::trim_end_matches('/')`-style: removes all trailing
occurrences of the character `c`. -/
def trimEndMatches (c : Char) (s : List Char) : List Char :=
  (s.reverse.dropWhile (fun d => d = c)).reverse

/-- The segment of `s` before the first occurrence of `c`:
Rust `s.split(c).next().unwrap_or(s)`.  `split(c).next()` always yields
the (possibly empty) first segment, so the `unwrap_or(s)` fallback in
the source can never fire. -/
def splitFirst (c : Char) (s : List Char) : List Char :=
  s.takeWhile (fun d => d ≠ c)

/-- `canonical_url` from `model.rs`: strip a leading `https://` then
`http://` then `www.` (each repeatedly, as `trim_start_matches` does),
take the part before the first `'#'`, then before the first `'?'`, then
strip trailing `'/'` characters. -/
def canonical_url (url : List Char) : List Char :=
  let s := trimStartMatches "www.".toList
    (trimStartMatches "http://".toList (trimStartMatches "https://".toList url))
  let s := splitFirst '#' s
  let s := splitFirst '?' s
  trimEndMatches '/' s

/-- `true` iff the string's last character is `'/'`. -/
def endsWithSlash (s : List Char) : Bool :=
  s.getLast? == some '/'

/-- `Source` from `model.rs`; the derived Rust `Ord` compares the
discriminants `History = 0 < Bookmark = 1 < Tab = 2`. -/
inductive Source where
  | History
  | Bookmark
  | Tab
deriving DecidableEq, Repr

/-- The discriminant of a `Source`, giving the derived `Ord`:
`a > b` in Rust is `a.prec > b.prec` here. -/
def Source.prec : Source → Nat
  | .History => 0
  | .Bookmark => 1
  | .Tab => 2

/-- The `Entry` struct from `model.rs`.  `visit_count` is a Rust `u32`
(so a merged map built from real entries only holds values `< 2 ^ 32`),
`last_visit` an `i64`, `tab_id` an `i32`, `canonical_key` a `u64` hash
of the canonical URL form (the hash function is opaque here: dedupe
only compares keys for equality). -/
structure Entry where
  url : String
  title : String
  source : Source
  visit_count : Option Nat
  last_visit : Option Int
  folder : Option String
  tab_id : Option Int
  url_norm : String
  title_norm : String
  canonical_key : Nat
deriving DecidableEq, Repr

/-- Rust `u32::saturating_add` on `Nat`-represented `u32` values. -/
def satAdd32 (a b : Nat) : Nat :=
  min (a + b) (2 ^ 32 - 1)

/-- The `and_modify` closure of `dedupe_entries` in `search.rs`, merging
an incoming `entry` into the retained `existing` record in place. -/
def mergeInto (existing entry : Entry) : Entry :=
  let e1 :=
    if entry.source.prec > existing.source.prec ∧ entry.title ≠ "" then
      { existing with title := entry.title, title_norm := entry.title_norm }
    else existing
  let e2 :=
    match entry.visit_count with
    | some vc => { e1 with visit_count := some (satAdd32 (e1.visit_count.getD 0) vc) }
    | none => e1
  match e2.last_visit, entry.last_visit with
  | none, _ => { e2 with last_visit := entry.last_visit }
  | some a, some lv => { e2 with last_visit := some (max a lv) }
  | some _, none => e2

/-- One step of the dedupe fold:
`map.entry(entry.canonical_key).and_modify(..).or_insert(entry)`.
The `AHashMap` is modelled as an insertion-ordered association list. -/
def mapInsert (m : List (Nat × Entry)) (e : Entry) : List (Nat × Entry) :=
  if m.any (fun p => p.1 == e.canonical_key) then
    m.map (fun p => if p.1 == e.canonical_key then (p.1, mergeInto p.2 e) else p)
  else
    m ++ [(e.canonical_key, e)]

/-- The association list built by the loop of `dedupe_entries`. -/
def dedupeMap (entries : List Entry) : List (Nat × Entry) :=
  entries.foldl mapInsert []

/-- `dedupe_entries` from `search.rs` (`map.into_values().collect()`;
the value order of a Rust `AHashMap` is unspecified, so properties are
stated via key lookup in `dedupeMap`). -/
def dedupe_entries (entries : List Entry) : List Entry :=
  (dedupeMap entries).map Prod.snd

/-- `SearchEngine::score_entry` from `search.rs`, parametric in the
external fuzzy-matching primitive `patScore` (nucleo's
`Pattern::score` on a haystack, here `query → haystack → Option score`)
and in `finalScore`, the `f32` computation
`base * freq_boost * source_weight` (the floats are abstracted into a
linear order `S`; `finalScore` receives the entry, for its
`visit_count` and `source`, and the base score `max` of the matching
sub-scores).  Returns `none` — the record is excluded — exactly when
neither `title_norm` nor `url_norm` matches. -/
def score_entry {S : Type} (patScore : String → String → Option Nat)
    (finalScore : Entry → Nat → S) (query : String) (e : Entry) : Option S :=
  let title_score := patScore query e.title_norm
  let url_score := patScore query e.url_norm
  match title_score, url_score with
  | some t, some u => some (finalScore e (Nat.max t u))
  | some t, none => some (finalScore e t)
  | none, some u => some (finalScore e u)
  | none, none => none

/-- The scored list built inside `search`: each entry paired with its
score, unscoreable entries excluded. -/
def scoredList {S : Type} (patScore : String → String → Option Nat)
    (finalScore : Entry → Nat → S) (query : String) (entries : List Entry) :
    List (Entry × S) :=
  entries.filterMap (fun e => (score_entry patScore finalScore query e).map (fun s => (e, s)))

/-- Insert a scored pair into a list sorted by descending score,
keeping it sorted. -/
def insertDesc {S : Type} [LinearOrder S] (p : Entry × S) :
    List (Entry × S) → List (Entry × S)
  | [] => [p]
  | q :: l => if q.2 ≤ p.2 then p :: q :: l else q :: insertDesc p l

/-- Sort scored pairs by descending score: the comparator
`|a, b| b.1.partial_cmp(&a.1).unwrap_or(Equal)` of `search.rs` (scores
are never NaN there, so `unwrap_or(Equal)` is the total order on `S`).
Also stands in for the `select_nth_unstable_by` + `truncate` step,
whose tie behaviour is unspecified: sorting descending and truncating
realises one allowed behaviour. -/
def sortDesc {S : Type} [LinearOrder S] : List (Entry × S) → List (Entry × S)
  | [] => []
  | p :: l => insertDesc p (sortDesc l)

/-- `SearchEngine::search` from `search.rs`.  Returns `none` for the
panic: when the query is non-empty, more records score than `limit`,
and `limit = 0`, the Rust code evaluates `limit - 1` (a `usize`
underflow) and hands it to `select_nth_unstable_by`, which panics for
any index `>= len` — so the call never returns a result. -/
def search {S : Type} [LinearOrder S] (patScore : String → String → Option Nat)
    (finalScore : Entry → Nat → S) (entries : List Entry) (query : String)
    (limit : Nat) : Option (List Entry) :=
  if query.isEmpty then
    some (entries.take limit)
  else
    let scored := scoredList patScore finalScore query entries
    if scored.length > limit then
      if limit = 0 then
        none
      else
        let kept := (sortDesc scored).take limit
        some ((sortDesc kept).map Prod.fst)
    else
      some ((sortDesc scored).map Prod.fst)

theorem length_insertDesc {S : Type} [LinearOrder S] (p : Entry × S) (l : List (Entry × S)) :
    (insertDesc p l).length = l.length + 1 := by
  induction l with
  | nil => rfl
  | cons q l ih =>
    simp only [insertDesc]
    split <;> simp [ih]

theorem length_sortDesc {S : Type} [LinearOrder S] (l : List (Entry × S)) :
    (sortDesc l).length = l.length := by
  induction l with
  | nil => rfl
  | cons p l ih => simp [sortDesc, length_insertDesc, ih]

theorem mem_insertDesc {S : Type} [LinearOrder S] {x p : Entry × S} {l : List (Entry × S)} :
    x ∈ insertDesc p l ↔ x = p ∨ x ∈ l := by
  induction l with
  | nil => simp [insertDesc]
  | cons q l ih =>
    simp only [insertDesc]
    split
    · simp [List.mem_cons]
    · simp only [List.mem_cons, ih]
      tauto

theorem mem_sortDesc {S : Type} [LinearOrder S] {x : Entry × S} {l : List (Entry × S)} :
    x ∈ sortDesc l ↔ x ∈ l := by
  induction l with
  | nil => simp [sortDesc]
  | cons p l ih => simp [sortDesc, mem_insertDesc, ih]

theorem pairwise_insertDesc {S : Type} [LinearOrder S] {p : Entry × S} {l : List (Entry × S)}
    (h : l.Pairwise (fun a b => b.2 ≤ a.2)) :
    (insertDesc p l).Pairwise (fun a b => b.2 ≤ a.2) := by
  induction l with
  | nil => simp [insertDesc]
  | cons q l ih =>
    rw [List.pairwise_cons] at h
    simp only [insertDesc]
    split
    · rename_i hle
      refine List.pairwise_cons.mpr ⟨?_, List.pairwise_cons.mpr h⟩
      intro b hb
      rcases List.mem_cons.mp hb with hb | hb
      · exact hb ▸ hle
      · exact le_trans (h.1 b hb) hle
    · rename_i hgt
      refine List.pairwise_cons.mpr ⟨?_, ih h.2⟩
      intro b hb
      rcases mem_insertDesc.mp hb with hb | hb
      · exact hb ▸ le_of_not_le hgt
      · exact h.1 b hb

theorem pairwise_sortDesc {S : Type} [LinearOrder S] (l : List (Entry × S)) :
    (sortDesc l).Pairwise (fun a b => b.2 ≤ a.2) := by
  induction l with
  | nil => simp [sortDesc]
  | cons p l ih => exact pairwise_insertDesc ih

theorem score_of_mem_scoredList {S : Type} (patScore : String → String → Option Nat)
    (finalScore : Entry → Nat → S) (query : String) (entries : List Entry)
    {p : Entry × S} (hp : p ∈ scoredList patScore finalScore query entries) :
    score_entry patScore finalScore query p.1 = some p.2 := by
  rcases List.mem_filterMap.mp hp with ⟨a, _, ha⟩
  rcases Option.map_eq_some'.mp ha with ⟨s, hs, hps⟩
  rw [← hps]
  exact hs

theorem chain_of_sortDesc_map {S : Type} [LinearOrder S]
    (patScore : String → String → Option Nat) (finalScore : Entry → Nat → S)
    (query : String) (l : List (Entry × S))
    (hl : ∀ p ∈ l, score_entry patScore finalScore query p.1 = some p.2) :
    List.Chain' (fun a b => ∀ sa sb,
        score_entry patScore finalScore query a = some sa →
        score_entry patScore finalScore query b = some sb → sb ≤ sa)
      ((sortDesc l).map Prod.fst) := by
  have hpw : (sortDesc l).Pairwise (fun a b => b.2 ≤ a.2) := pairwise_sortDesc l
  have hpw2 : (sortDesc l).Pairwise (fun a b => ∀ sa sb,
      score_entry patScore finalScore query a.1 = some sa →
      score_entry patScore finalScore query b.1 = some sb → sb ≤ sa) := by
    refine hpw.imp_of_mem ?_
    intro a b ha hb hle sa sb hsa hsb
    have ha' := hl a (mem_sortDesc.mp ha)
    have hb' := hl b (mem_sortDesc.mp hb)
    rw [ha'] at hsa
    rw [hb'] at hsb
    cases hsa
    cases hsb
    exact hle
  exact List.Pairwise.chain' (List.pairwise_map.mpr hpw2)

/-- Sample records (as `Entry::new_history` would build them) used to
instantiate the search theorems on concrete inputs. -/
def rustEntry : Entry :=
  ⟨"https://rust-lang.org", "Rust Language", .History, some 1, some 1000, none, none,
    "rust-lang.org", "rust language", 11⟩

/-- A second sample history record. -/
def pyEntry : Entry :=
  ⟨"https://python.org", "Python", .History, some 1, some 1000, none, none,
    "python.org", "python", 12⟩

/-- Claim C8: with an empty query, `search` returns exactly the first
`limit` records of the input in input order, with no scoring applied
(the result does not depend on the scoring functions). -/
theorem claim_C8_empty_query {S : Type} [LinearOrder S]
    (patScore : String → String → Option Nat) (finalScore : Entry → Nat → S)
    (entries : List Entry) (limit : Nat) :
    search patScore finalScore entries "" limit = some (entries.take limit) := rfl

/-- Claim C1: `search` does not terminate normally on every input — at
`limit = 0` with a non-empty query and a record that the matcher
scores, the Rust code computes `limit - 1` (usize underflow) and
`select_nth_unstable_by` panics; the model returns `none` there
instead of a result sequence. -/
theorem claim_C1_limit_zero_panics :
    search (fun _ _ => some 1) (fun _ n => (n : Nat)) [rustEntry] "rust" 0 = none := by
  decide

/-- Claim C2, counterexample to the claim as stated: at `limit = 0`,
which is strictly less than the scored-record count (here 1), the call
does not produce a result of length `limit` — it panics (`none`),
because `limit - 1` underflows before `select_nth_unstable_by`. -/
theorem claim_C2_counterexample :
    0 < (scoredList (fun _ _ => some 1) (fun _ n => (n : Nat)) "rust" [rustEntry]).length ∧
    search (fun _ _ => some 1) (fun _ n => (n : Nat)) [rustEntry] "rust" 0 = none := by
  decide

/-- Claim C2 (amended): for a non-empty query, provided `limit ≥ 1` or
no record scores, `search` returns a result whose length is `limit`
when `limit` is below the scored-record count and the scored-record
count otherwise (`min` of the two). -/
theorem claim_C2_result_length {S : Type} [LinearOrder S]
    (patScore : String → String → Option Nat) (finalScore : Entry → Nat → S)
    (entries : List Entry) (query : String) (limit : Nat)
    (hq : query.isEmpty = false)
    (hl : 0 < limit ∨ (scoredList patScore finalScore query entries).length = 0) :
    (search patScore finalScore entries query limit).map List.length =
      some (min limit (scoredList patScore finalScore query entries).length) := by
  rw [search, if_neg (by simp [hq])]
  by_cases hgt : (scoredList patScore finalScore query entries).length > limit
  · have hlim : limit ≠ 0 := by rcases hl with hl | hl <;> omega
    rw [if_pos hgt, if_neg hlim]
    rw [Option.map_some', List.length_map, length_sortDesc, List.length_take, length_sortDesc]
  · rw [if_neg hgt]
    rw [Option.map_some', List.length_map, length_sortDesc]
    congr 1
    omega

/-- Witness for the amended Claim C2 at a concrete input: two records
score, `limit = 1`, and a result of length `min 1 2 = 1` comes back. -/
theorem claim_C2_result_length_witness :
    (search (fun _ _ => some 1) (fun _ n => (n : Nat)) [rustEntry, pyEntry] "rust" 1).map
        List.length =
      some (min 1 (scoredList (fun _ _ => some 1) (fun _ n => (n : Nat)) "rust"
        [rustEntry, pyEntry]).length) :=
  claim_C2_result_length _ _ _ _ _ rfl (Or.inl Nat.one_pos)

/-- Claim C9: for a non-empty query, whenever `search` returns a result
sequence, that sequence is sorted by non-increasing final score: for
every adjacent pair, the later entry's score is at most the earlier
one's (ties carry no order guarantee, which this statement does not
impose). -/
theorem claim_C9_sorted_by_score {S : Type} [LinearOrder S]
    (patScore : String → String → Option Nat) (finalScore : Entry → Nat → S)
    (entries : List Entry) (query : String) (limit : Nat) (out : List Entry)
    (hq : query.isEmpty = false)
    (h : search patScore finalScore entries query limit = some out) :
    List.Chain' (fun a b => ∀ sa sb,
        score_entry patScore finalScore query a = some sa →
        score_entry patScore finalScore query b = some sb → sb ≤ sa) out := by
  rw [search, if_neg (by simp [hq])] at h
  by_cases hgt : (scoredList patScore finalScore query entries).length > limit
  · rw [if_pos hgt] at h
    by_cases hlim : limit = 0
    · rw [if_pos hlim] at h
      cases h
    · rw [if_neg hlim] at h
      cases h
      refine chain_of_sortDesc_map patScore finalScore query _ ?_
      intro p hp
      exact score_of_mem_scoredList patScore finalScore query entries
        (mem_sortDesc.mp (List.mem_of_mem_take hp))
  · rw [if_neg hgt] at h
    cases h
    refine chain_of_sortDesc_map patScore finalScore query _ ?_
    intro p hp
    exact score_of_mem_scoredList patScore finalScore query entries hp

/-- Witness for Claim C9 at a concrete input: `pyEntry` scores 9,
`rustEntry` scores 4, and the returned sequence `[pyEntry, rustEntry]`
is descending in score. -/
theorem claim_C9_sorted_by_score_witness :
    List.Chain' (fun a b => ∀ sa sb,
        score_entry (fun _ h => if h = "python" ∨ h = "python.org" then some 9 else some 4)
          (fun _ n => (n : Nat)) "q" a = some sa →
        score_entry (fun _ h => if h = "python" ∨ h = "python.org" then some 9 else some 4)
          (fun _ n => (n : Nat)) "q" b = some sb → sb ≤ sa)
      [pyEntry, rustEntry] :=
  claim_C9_sorted_by_score _ _ [rustEntry, pyEntry] "q" 5 [pyEntry, rustEntry] rfl (by decide)

/-- Claim C5: on a merge-key collision, the retained `title` and
`title_norm` become the incoming record's ones exactly when the
incoming source precedence is strictly greater and the incoming title
is non-empty; otherwise the retained values stay. -/
theorem claim_C5_title_override (existing entry : Entry) :
    (mergeInto existing entry).title =
      (if entry.source.prec > existing.source.prec ∧ entry.title ≠ "" then entry.title
       else existing.title) ∧
    (mergeInto existing entry).title_norm =
      (if entry.source.prec > existing.source.prec ∧ entry.title ≠ "" then entry.title_norm
       else existing.title_norm) := by
  unfold mergeInto
  dsimp only
  repeat' (first | split | dsimp only)
  all_goals simp_all

/-- Claim C6: on a merge-key collision, `visit_count` becomes the
saturating sum of retained and incoming (`None` as 0 on either side,
`None` only when both are `None`), and `last_visit` becomes the
incoming value when retained is `None`, the maximum when both are
present, and is unchanged when only the retained side is present.  The
hypothesis records that the retained count is a `u32` value. -/
theorem claim_C6_count_visit_merge (existing entry : Entry)
    (hv : ∀ a ∈ existing.visit_count, a < 2 ^ 32) :
    (mergeInto existing entry).visit_count =
      (match existing.visit_count, entry.visit_count with
       | none, none => none
       | a, b => some (satAdd32 (a.getD 0) (b.getD 0))) ∧
    (mergeInto existing entry).last_visit =
      (match existing.last_visit, entry.last_visit with
       | none, lv => lv
       | some a, some lv => some (max a lv)
       | some a, none => some a) := by
  unfold mergeInto
  dsimp only
  rcases hev : existing.visit_count with _ | a <;>
    rcases hnv : entry.visit_count with _ | b <;>
      rcases hel : existing.last_visit with _ | c <;>
        rcases hnl : entry.last_visit with _ | lv <;>
          repeat' (first | split | dsimp only)
  all_goals simp_all [satAdd32]
  all_goals omega

/-- Two sample history records for the same page (equal merge key),
mirroring the `dedupe_merges_visit_counts` test. -/
def histA : Entry :=
  ⟨"https://example.com", "Example", .History, some 5, some 1000, none, none,
    "example.com", "example", 5⟩

/-- The later colliding history record. -/
def histB : Entry :=
  ⟨"https://example.com", "Example", .History, some 3, some 2000, none, none,
    "example.com", "example", 5⟩

/-- Witness for Claim C6 at a concrete collision: visit counts 5 and 3
merge to 8, last visits 1000 and 2000 merge to 2000. -/
theorem claim_C6_count_visit_merge_witness :
    (mergeInto histA histB).visit_count =
      (match histA.visit_count, histB.visit_count with
       | none, none => none
       | a, b => some (satAdd32 (a.getD 0) (b.getD 0))) ∧
    (mergeInto histA histB).last_visit =
      (match histA.last_visit, histB.last_visit with
       | none, lv => lv
       | some a, some lv => some (max a lv)
       | some a, none => some a) :=
  claim_C6_count_visit_merge histA histB (by decide)

/-- The structural fields of a record that `dedupe_entries` never
merges: `(folder, tab_id, url)`. -/
def tripleOf (e : Entry) : Option String × Option Int × String :=
  (e.folder, e.tab_id, e.url)

/-- The structural fields of the record stored under key `k` in a
dedupe map, `none` when `k` is absent. -/
def tfind (k : Nat) (m : List (Nat × Entry)) : Option (Option String × Option Int × String) :=
  (m.find? (fun p => p.1 == k)).map (fun p => tripleOf p.2)

theorem tripleOf_mergeInto (existing entry : Entry) :
    tripleOf (mergeInto existing entry) = tripleOf existing := by
  unfold mergeInto tripleOf
  dsimp only
  repeat' (first | split | dsimp only)

theorem tfind_mapInsert (m : List (Nat × Entry)) (e : Entry) (k : Nat) :
    tfind k (mapInsert m e) =
      (tfind k m).or (if e.canonical_key == k then some (tripleOf e) else none) := by
  unfold tfind mapInsert
  split
  · rename_i hany
    rw [List.find?_map]
    have hpred : ((fun p : Nat × Entry => p.1 == k) ∘
        fun p : Nat × Entry => if p.1 == e.canonical_key then (p.1, mergeInto p.2 e) else p) =
        fun p : Nat × Entry => p.1 == k := by
      funext p
      by_cases hp : p.1 = e.canonical_key <;> simp [hp]
    rw [hpred, Option.map_map]
    have hg : ((fun p : Nat × Entry => tripleOf p.2) ∘
        fun p : Nat × Entry => if p.1 == e.canonical_key then (p.1, mergeInto p.2 e) else p) =
        fun p : Nat × Entry => tripleOf p.2 := by
      funext p
      by_cases hp : p.1 = e.canonical_key <;> simp [hp, tripleOf_mergeInto]
    rw [hg]
    by_cases hk : e.canonical_key = k
    · have hsome : (m.find? (fun p : Nat × Entry => p.1 == k)).isSome := by
        rw [List.find?_isSome]
        rcases List.any_eq_true.mp hany with ⟨p, hp, hpe⟩
        refine ⟨p, hp, ?_⟩
        simp only [beq_iff_eq] at hpe ⊢
        omega
      rcases Option.isSome_iff_exists.mp hsome with ⟨p, hp⟩
      rw [hp]
      rfl
    · rw [if_neg (by simp [hk]), Option.or_none]
  · rw [List.find?_append]
    have hsingle : ([(e.canonical_key, e)].find? (fun p : Nat × Entry => p.1 == k)) =
        if e.canonical_key == k then some (e.canonical_key, e) else none := by
      by_cases hk : e.canonical_key = k
      · simp [List.find?, hk]
      · have hb : (e.canonical_key == k) = false := by simp [hk]
        simp [List.find?, hb]
    rw [hsingle]
    by_cases hk : e.canonical_key = k
    · rw [if_pos (by simp [hk]), if_pos (by simp [hk])]
      cases m.find? (fun p : Nat × Entry => p.1 == k) <;> rfl
    · rw [if_neg (by simp [hk]), if_neg (by simp [hk])]
      cases m.find? (fun p : Nat × Entry => p.1 == k) <;> rfl

theorem tfind_foldl (entries : List Entry) (m : List (Nat × Entry)) (k : Nat) :
    tfind k (entries.foldl mapInsert m) =
      (tfind k m).or ((entries.find? (fun e => e.canonical_key == k)).map tripleOf) := by
  induction entries generalizing m with
  | nil => simp [List.foldl]
  | cons e es ih =>
    rw [List.foldl_cons, ih, tfind_mapInsert, Option.or_assoc]
    congr 1
    by_cases hk : e.canonical_key = k
    · have hb : (e.canonical_key == k) = true := by simp [hk]
      simp [List.find?, hb]
    · have hb : (e.canonical_key == k) = false := by simp [hk]
      simp [List.find?, hb]

/-- Claim C7: for every input sequence and merge key, the structural
fields `folder`, `tab_id`, `url` of the record retained under that key
by the dedupe fold are exactly those of the first input record with
that key — no later-merged record changes them. -/
theorem claim_C7_structural_fields_frame (entries : List Entry) (k : Nat) :
    tfind k (dedupeMap entries) =
      (entries.find? (fun e => e.canonical_key == k)).map tripleOf := by
  rw [dedupeMap, tfind_foldl]
  simp [tfind, List.find?]

theorem head?_dropWhile_false (p : Char → Bool) (l : List Char) (d : Char)
    (h : (l.dropWhile p).head? = some d) : p d = false := by
  induction l with
  | nil => cases h
  | cons a l ih =>
    rw [List.dropWhile_cons] at h
    split at h
    · exact ih h
    · rename_i hpa
      cases h
      simpa using hpa

theorem endsWithSlash_trimEndMatches (s : List Char) :
    endsWithSlash (trimEndMatches '/' s) = false := by
  rw [endsWithSlash, trimEndMatches, List.getLast?_reverse]
  cases hh : (s.reverse.dropWhile (fun d => d = '/')).head? with
  | none => rfl
  | some d =>
    have hd := head?_dropWhile_false (fun d => d = '/') s.reverse d hh
    simp_all

/-- Claim C3: an input that is only a fragment or only a query suffix
does NOT fall back to the pre-split string — `split('#').next()` (and
`split('?').next()`) always returns `Some`, even `Some("")`, so the
`unwrap_or` fallback in the source is dead code and the canonical form
comes out empty. -/
theorem claim_C3_fragment_only_inputs :
    canonical_url "#frag".toList = [] ∧ canonical_url "?q=1".toList = [] := by
  decide

/-- Claim C4, counterexample to the claim as stated: the stripped form
of `"example.com//"` still ends in `"//"` (stripping schemes, `www.`,
fragment and query leaves it unchanged), yet its canonical form is
`"example.com"`, with no trailing slash left — `trim_end_matches('/')`
removes every trailing slash, not just one. -/
theorem claim_C4_counterexample :
    splitFirst '?' (splitFirst '#' (trimStartMatches "www.".toList
        (trimStartMatches "http://".toList
          (trimStartMatches "https://".toList "example.com//".toList)))) =
      "example.com//".toList ∧
    canonical_url "example.com//".toList = "example.com".toList ∧
    endsWithSlash (canonical_url "example.com//".toList) = false := by
  decide

/-- Claim C4 (amended): `canonical_url` strips ALL trailing slashes,
so no canonical form ever ends in `'/'` — in particular an input whose
stripped form ends in `"//"` loses both slashes. -/
theorem claim_C4_no_trailing_slash (url : List Char) :
    endsWithSlash (canonical_url url) = false := by
  rw [canonical_url]
  exact endsWithSlash_trimEndMatches _

/-- Claim C10: `canonical_url` is not idempotent — for the input
`"http://https://example.com"` one pass strips only the `http://`
prefix (yielding `"https://example.com"`), and a second pass strips
again, so re-canonicalizing changes the string. -/
theorem claim_C10_not_idempotent :
    ∃ u : List Char, (canonical_url (canonical_url u) == canonical_url u) = false :=
  ⟨"http://https://example.com".toList, by decide⟩
